import Mathlib

/-!
Shallow embedding of the semantic-lowering pass of
`src/graphix_qasm_parser/parser.py`: the value model (`_Value` and its
subclasses `_Int`, `_Float`, `_Bit`, `_Qubit`, `_Array`), the expression
evaluator (`_ExpressionVisitor`), the register-declaration logic and gate
dispatcher (`_CircuitVisitor`).

Modelling conventions:
- Python `int` is `ℤ`; Python `float` is modelled as `ℚ` (exact arithmetic
  standing in for IEEE-754 doubles).
- Python exceptions are an error enumeration `Err`; each constructor names
  the Python exception class that `parser.py` raises at that point.
- Fallible code returns `Except Err`.
-/

namespace GraphixQasm

/-- The Python exception classes raised by `parser.py`.  The spec's error
kinds map onto them as follows: UndefinedName = `nameError`, TypeMismatch =
`typeError`, IndexOutOfRange = `indexError`, ArithmeticError =
`zeroDivisionError`, UnknownGate / UnknownOperator / UnparseableExpression =
`notImplementedError`.  `valueError` is raised by `convert_qubit_index`
("Qubit expected") and `attributeError` by the `result.ctx = ctx`
assignment when unary minus returned `NotImplemented`. -/
inductive Err where
  | nameError
  | typeError
  | indexError
  | valueError
  | zeroDivisionError
  | notImplementedError
  | attributeError
deriving Repr, DecidableEq

/-- The value model: `_Int`, `_Float`, `_Bit`, `_Qubit`, `_Array` from
`parser.py` (the `ctx` field, used only for diagnostics, is omitted). -/
inductive Value where
  | int (value : ℤ)
  | float (value : ℚ)
  | bit (index : ℤ)
  | qubit (index : ℤ)
  | array (values : List Value)

/-- A value produced by a Python arithmetic primitive: an `int` or a
`float`.  Used to model `result = self.value / other.value` in
`_Int.__truediv__`, whose result kind is then inspected with
`isinstance(result, int)`. -/
inductive PyNum where
  | pyInt (value : ℤ)
  | pyFloat (value : ℚ)
deriving Repr, DecidableEq

/-- Python true division `a / b` on two `int`s: raises `ZeroDivisionError`
when `b = 0`; otherwise the result is always a `float` (Python's `/` on
integers performs true division and never returns an `int`). -/
def pyIntTrueDiv (a b : ℤ) : Except Err PyNum :=
  if b = 0 then .error .zeroDivisionError
  else .ok (.pyFloat ((a : ℚ) / (b : ℚ)))

/-- Unary minus on a value (`-operand` in `visitUnaryExpression`):
`_Int.__neg__` and `_Float.__neg__` negate; every other `_Value` leaves
`__neg__` returning `NotImplemented`, so the following `result.ctx = ctx`
attribute assignment raises `AttributeError`. -/
def valueNeg : Value → Except Err Value
  | .int a => .ok (.int (-a))
  | .float a => .ok (.float (-a))
  | _ => .error .attributeError

/-- Addition `lhs + rhs` on values, following Python's binary-operator protocol:
`_Int.__add__` accepts `_Int`; `_Float.__add__` accepts `_Int` and
`_Float`; `_Float.__radd__` accepts `_Int`; every other combination has
both sides return `NotImplemented`, which Python turns into `TypeError`. -/
def valueAdd : Value → Value → Except Err Value
  | .int a, .int b => .ok (.int (a + b))
  | .int a, .float b => .ok (.float ((a : ℚ) + b))
  | .float a, .int b => .ok (.float (a + (b : ℚ)))
  | .float a, .float b => .ok (.float (a + b))
  | _, _ => .error .typeError

/-- Subtraction `lhs - rhs` on values (`__sub__` / `__rsub__`, same shape as
addition). -/
def valueSub : Value → Value → Except Err Value
  | .int a, .int b => .ok (.int (a - b))
  | .int a, .float b => .ok (.float ((a : ℚ) - b))
  | .float a, .int b => .ok (.float (a - (b : ℚ)))
  | .float a, .float b => .ok (.float (a - b))
  | _, _ => .error .typeError

/-- Multiplication `lhs * rhs` on values (`__mul__` / `__rmul__`, same shape as
addition). -/
def valueMul : Value → Value → Except Err Value
  | .int a, .int b => .ok (.int (a * b))
  | .int a, .float b => .ok (.float ((a : ℚ) * b))
  | .float a, .int b => .ok (.float (a * (b : ℚ)))
  | .float a, .float b => .ok (.float (a * b))
  | _, _ => .error .typeError

/-- Division `lhs / rhs` on values.  `_Int.__truediv__` computes
`result = self.value / other.value` (Python true division, which on two
`int`s is always a `float`), then returns `_Int` if `isinstance(result,
int)` — a branch that can never be taken — and `_Float` otherwise.
`_Float.__truediv__` / `__rtruediv__` cover the mixed and float cases;
division by zero raises `ZeroDivisionError`. -/
def valueDiv : Value → Value → Except Err Value
  | .int a, .int b =>
      match pyIntTrueDiv a b with
      | .error e => .error e
      | .ok (.pyInt r) => .ok (.int r)
      | .ok (.pyFloat r) => .ok (.float r)
  | .int a, .float b =>
      if b = 0 then .error .zeroDivisionError else .ok (.float ((a : ℚ) / b))
  | .float a, .int b =>
      if b = 0 then .error .zeroDivisionError else .ok (.float (a / (b : ℚ)))
  | .float a, .float b =>
      if b = 0 then .error .zeroDivisionError else .ok (.float (a / b))
  | _, _ => .error .typeError

/-- Python's `%` on rationals standing in for floats: `a - b * ⌊a / b⌋`
(the result takes the sign of the divisor, as in Python). -/
def ratFmod (a b : ℚ) : ℚ := a - b * (Int.floor (a / b) : ℚ)

/-- Modulo `lhs % rhs` on values: `_Int.__mod__` accepts only `_Int` (Python's
floored `%` on integers, `Int.fmod`); `_Float.__mod__` / `__rmod__` accept
only `_Float`; every mixed or non-numeric pair raises `TypeError`; a zero
divisor raises `ZeroDivisionError`. -/
def valueMod : Value → Value → Except Err Value
  | .int a, .int b =>
      if b = 0 then .error .zeroDivisionError else .ok (.int (Int.fmod a b))
  | .float a, .float b =>
      if b = 0 then .error .zeroDivisionError else .ok (.float (ratFmod a b))
  | _, _ => .error .typeError

/-- Conversion `int(value)`: `_Int.__int__` returns the payload; every other `_Value`
(including `_Float`, which overrides only `__float__`) falls back to
`_Value.__int__`, which raises `TypeError`. -/
def valueToInt : Value → Except Err ℤ
  | .int a => .ok a
  | _ => .error .typeError

/-- Conversion `float(value)`: `_Int.__float__` converts, `_Float.__float__` returns
the payload, every other `_Value` raises `TypeError`. -/
def valueToFloat : Value → Except Err ℚ
  | .int a => .ok (a : ℚ)
  | .float a => .ok a
  | _ => .error .typeError

/-- The symbol environment `env : dict[str, _Value]`, modelled as an
association list where the most recent binding of a name shadows older
ones (matching dict assignment, last-write-wins). -/
abbrev Env := List (String × Value)

/-- Lookup `env.get(name)`. -/
def envGet : Env → String → Option Value
  | [], _ => none
  | p :: rest, name => if p.1 = name then some p.2 else envGet rest name

/-- Assignment `env[name] = v`. -/
def envSet (env : Env) (name : String) (v : Value) : Env := (name, v) :: env

/-- The rational value of the IEEE-754 double `math.pi`
(= 884279719003555 / 2^48). -/
def mathPi : ℚ := 884279719003555 / 281474976710656

/-- Binary operator tokens dispatched by `parse_binary_operator`
(`ASTERISK`, `SLASH`, `PERCENT`, `PLUS`, `MINUS`). -/
inductive BinOp where
  | add
  | sub
  | mul
  | div
  | mod
deriving Repr, DecidableEq

/-- CST expression shapes handled by `_ExpressionVisitor`: parenthesized
expressions, unary minus, additive/multiplicative binary nodes, decimal
integer literals, float literals, and bare identifiers. -/
inductive Expr where
  | paren (e : Expr)
  | neg (e : Expr)
  | binop (op : BinOp) (lhs rhs : Expr)
  | intLit (n : ℕ)
  | floatLit (q : ℚ)
  | ident (name : String)
deriving Repr, DecidableEq

/-- Dispatch of `parse_binary_operator` on the operator token. -/
def applyBinOp : BinOp → Value → Value → Except Err Value
  | .mul, lhs, rhs => valueMul lhs rhs
  | .div, lhs, rhs => valueDiv lhs rhs
  | .mod, lhs, rhs => valueMod lhs rhs
  | .add, lhs, rhs => valueAdd lhs rhs
  | .sub, lhs, rhs => valueSub lhs rhs

/-- Evaluation `_ExpressionVisitor.parse`: reduce a CST expression to a `_Value`.
In `visitLiteralExpression`, an identifier found in the environment is
returned (every `_Value` instance is truthy, so `if value := env.get(id)`
succeeds exactly when the name is bound); an unbound identifier falls
through to `raise NotImplementedError("Unknown literal: ...")`. -/
def evalExpr (env : Env) : Expr → Except Err Value
  | .paren e => evalExpr env e
  | .neg e =>
      match evalExpr env e with
      | .error err => .error err
      | .ok v => valueNeg v
  | .binop op lhs rhs =>
      match evalExpr env lhs with
      | .error err => .error err
      | .ok lv =>
          match evalExpr env rhs with
          | .error err => .error err
          | .ok rv => applyBinOp op lv rv
  | .intLit n => .ok (.int (n : ℤ))
  | .floatLit q => .ok (.float q)
  | .ident name =>
      match envGet env name with
      | some v => .ok v
      | none => .error .notImplementedError

/-- A gate operand (`gateOperand` CST node): an indexed identifier (a name
followed by zero or more index operators) or a hardware qubit literal. -/
inductive Operand where
  | indexedIdent (name : String) (indices : List Expr)
  | hardwareQubit (text : String)
deriving Repr, DecidableEq

/-- The index-operator loop of `evaluate_operand`: for each index operator,
require the current value to be an `_Array` (`TypeError` otherwise),
evaluate the index expression and convert it with `int(...)`, reject a
negative index and an index `≥ len` with `IndexError`, and descend into
the selected element. -/
def indexValue (env : Env) : Value → List Expr → Except Err Value
  | v, [] => .ok v
  | v, idx :: rest =>
      match v with
      | .array vs =>
          match evalExpr env idx with
          | .error err => .error err
          | .ok iv =>
              match valueToInt iv with
              | .error err => .error err
              | .ok i =>
                  if h0 : i < 0 then .error .indexError
                  else if hlen : (vs.length : ℤ) ≤ i then .error .indexError
                  else indexValue env (vs.get ⟨i.toNat, by omega⟩) rest
      | _ => .error .typeError

/-- Operand evaluation `_CircuitVisitor.evaluate_operand`: look the base name up in the
environment (`NameError` when missing), then run the index-operator loop;
a hardware-qubit operand hits the `raise NotImplementedError("Unknown
operand")` catch-all. -/
def evaluate_operand (env : Env) : Operand → Except Err Value
  | .indexedIdent name indices =>
      match envGet env name with
      | none => .error .nameError
      | some v => indexValue env v indices
  | .hardwareQubit _ => .error .notImplementedError

/-- Operand resolution `_CircuitVisitor.convert_qubit_index`: evaluate the operand and
require a `_Qubit`, returning its index (`ValueError` "Qubit expected"
otherwise). -/
def convert_qubit_index (env : Env) (operand : Operand) : Except Err ℤ :=
  match evaluate_operand env operand with
  | .error err => .error err
  | .ok (.qubit i) => .ok i
  | .ok _ => .error .valueError

/-- The graphix instructions constructed by `visitGateCallStatement`, with
the fields in the order they are passed in `parser.py`. -/
inductive Instruction where
  | ccx (target : ℤ) (controls : ℤ × ℤ)
  | rzz (target : ℤ) (control : ℤ) (angle : ℚ)
  | cnot (target : ℤ) (control : ℤ)
  | swap (targets : ℤ × ℤ)
  | h (target : ℤ)
  | s (target : ℤ)
  | x (target : ℤ)
  | y (target : ℤ)
  | z (target : ℤ)
  | rx (target : ℤ) (angle : ℚ)
  | ry (target : ℤ) (angle : ℚ)
  | rz (target : ℤ) (angle : ℚ)
deriving Repr, DecidableEq

/-- The gate names recognized by the `if`/`elif` chain of
`visitGateCallStatement`. -/
def gateNames : List String :=
  ["ccx", "crz", "cx", "swap", "h", "s", "x", "y", "z", "rx", "ry", "rz"]

/-- Lowercase a string character-by-character (the kernel-reducible
counterpart of `String.toLower`, used to express "differs only in letter
case"). -/
def strToLower (t : String) : String := String.mk (t.data.map Char.toLower)

/-- Python list subscription `l[i]`: `IndexError` when out of range. -/
def listGet (l : List α) (i : ℕ) : Except Err α :=
  match l.get? i with
  | some a => .ok a
  | none => .error .indexError

/-- The `if gate == "ccx": ... elif ... else: raise NotImplementedError`
chain of `visitGateCallStatement`, acting on the already-resolved operand
indices and angle floats. -/
def dispatchGate (gate : String) (operands : List ℤ) (exprs : List ℚ) :
    Except Err Instruction :=
  if gate = "ccx" then do
    let t ← listGet operands 2
    let c0 ← listGet operands 0
    let c1 ← listGet operands 1
    .ok (.ccx t (c0, c1))
  else if gate = "crz" then do
    let t ← listGet operands 1
    let c ← listGet operands 0
    let a ← listGet exprs 0
    .ok (.rzz t c a)
  else if gate = "cx" then do
    let t ← listGet operands 1
    let c ← listGet operands 0
    .ok (.cnot t c)
  else if gate = "swap" then do
    let t0 ← listGet operands 0
    let t1 ← listGet operands 1
    .ok (.swap (t0, t1))
  else if gate = "h" then do
    .ok (.h (← listGet operands 0))
  else if gate = "s" then do
    .ok (.s (← listGet operands 0))
  else if gate = "x" then do
    .ok (.x (← listGet operands 0))
  else if gate = "y" then do
    .ok (.y (← listGet operands 0))
  else if gate = "z" then do
    .ok (.z (← listGet operands 0))
  else if gate = "rx" then do
    .ok (.rx (← listGet operands 0) (← listGet exprs 0))
  else if gate = "ry" then do
    .ok (.ry (← listGet operands 0) (← listGet exprs 0))
  else if gate = "rz" then do
    .ok (.rz (← listGet operands 0) (← listGet exprs 0))
  else .error .notImplementedError

/-- The mutable state of `_CircuitVisitor`: the running allocation counter
`width`, the accumulated instruction list, and the symbol environment. -/
structure VisitorState where
  width : ℤ
  instructions : List Instruction
  env : Env

/-- Initial state `_CircuitVisitor.__init__`: width 0, no instructions, environment
pre-populated with `pi` and `π`. -/
def initState : VisitorState :=
  { width := 0
    instructions := []
    env := [("pi", .float mathPi), ("π", .float mathPi)] }

/-- Register kinds: `QREG` declares `_Qubit` references, `CREG` declares
`_Bit` references (`decl_class` in `parser.py`). -/
inductive RegKind where
  | qreg
  | creg
deriving Repr, DecidableEq

/-- Constructor call `decl_class(ctx, index)`. -/
def RegKind.mkRef : RegKind → ℤ → Value
  | .qreg, i => .qubit i
  | .creg, i => .bit i

/-- Evaluation `int(self.evaluate_expression(expression))` of a size designator. -/
def desigCount (env : Env) (designator : Expr) : Except Err ℤ :=
  match evalExpr env designator with
  | .error err => .error err
  | .ok v => valueToInt v

/-- Declaration processing `_CircuitVisitor.declare_registers`: with a designator, evaluate it to
a count, build `[decl_class(ctx, width + i) for i in range(count)]`
(Python's `range` is empty for a non-positive count), wrap in an `_Array`,
advance `width` by the count (which may be negative) and bind the name;
without a designator, bind a scalar reference at the current `width` and
advance it by 1. -/
def declare_registers (st : VisitorState) (declClass : RegKind)
    (identifier : String) (designator : Option Expr) :
    Except Err VisitorState :=
  match designator with
  | some expression =>
      match desigCount st.env expression with
      | .error err => .error err
      | .ok count =>
          let value := Value.array ((List.range count.toNat).map
            (fun i : ℕ => declClass.mkRef (st.width + (i : ℤ))))
          .ok { st with
                  width := st.width + count
                  env := envSet st.env identifier value }
  | none =>
      .ok { st with
              width := st.width + 1
              env := envSet st.env identifier (declClass.mkRef st.width) }

/-- The angle-expression list of a gate call: absent (`None`) or a list of
expressions, each evaluated and converted with `float(...)`. -/
def resolveAngles (env : Env) : Option (List Expr) → Except Err (List ℚ)
  | none => .ok []
  | some exprs =>
      exprs.mapM (fun e =>
        match evalExpr env e with
        | .error err => .error err
        | .ok v => valueToFloat v)

/-- Gate lowering `_CircuitVisitor.visitGateCallStatement`: resolve each operand to a
qubit index, resolve the optional angle list to floats, dispatch on the
gate name, and append the constructed instruction. -/
def visitGateCallStatement (st : VisitorState) (gate : String)
    (operandList : List Operand) (exprList : Option (List Expr)) :
    Except Err VisitorState := do
  let operands ← operandList.mapM (convert_qubit_index st.env)
  let exprs ← resolveAngles st.env exprList
  let instruction ← dispatchGate gate operands exprs
  .ok { st with instructions := st.instructions ++ [instruction] }

/-- The top-level statement shapes handled by `_CircuitVisitor`:
old-style register declarations (`qreg` / `creg`), new-style qubit
declarations, `const` declarations, gate calls; `other` stands for any
statement kind the visitor does not override (the default visitor walks
it without effect). -/
inductive Stmt where
  | oldStyleDecl (kind : RegKind) (identifier : String)
      (designator : Option Expr)
  | quantumDecl (identifier : String) (designator : Option Expr)
  | constDecl (identifier : String) (value : Expr)
  | gateCall (gate : String) (operands : List Operand)
      (angles : Option (List Expr))
  | other
deriving Repr, DecidableEq

/-- Process one statement: `visitOldStyleDeclarationStatement`,
`visitQuantumDeclarationStatement` (always `_Qubit`),
`visitConstDeclarationStatement`, `visitGateCallStatement`, or the
default no-op visit. -/
def runStmt (st : VisitorState) : Stmt → Except Err VisitorState
  | .oldStyleDecl kind identifier designator =>
      declare_registers st kind identifier designator
  | .quantumDecl identifier designator =>
      declare_registers st .qreg identifier designator
  | .constDecl identifier valueExpr =>
      match evalExpr st.env valueExpr with
      | .error err => .error err
      | .ok v => .ok { st with env := envSet st.env identifier v }
  | .gateCall gate operands angles =>
      visitGateCallStatement st gate operands angles
  | .other => .ok st

/-- Process the program's statements in source order, failing fast. -/
def runStmts : VisitorState → List Stmt → Except Err VisitorState
  | st, [] => .ok st
  | st, stmt :: rest =>
      match runStmt st stmt with
      | .error err => .error err
      | .ok st' => runStmts st' rest

/-- Entry point `parse_stream` / `parse_str`: walk the program from the initial
visitor state and return `Circuit(width, instructions)`. -/
def parseProgram (stmts : List Stmt) : Except Err (ℤ × List Instruction) :=
  match runStmts initState stmts with
  | .error err => .error err
  | .ok st => .ok (st.width, st.instructions)

/-- Whether a value is numeric (`_Int` or `_Float`). -/
def Value.isNumeric : Value → Bool
  | .int _ => true
  | .float _ => true
  | _ => false

/-- An operand index within the IR's allocated range `[0, w)`. -/
def idxOk (w i : ℤ) : Bool := decide (0 ≤ i) && decide (i < w)

mutual

/-- Every qubit/bit reference reachable inside the value has its index in
`[0, w)`. -/
def valueBounded (w : ℤ) : Value → Bool
  | .int _ => true
  | .float _ => true
  | .bit i => idxOk w i
  | .qubit i => idxOk w i
  | .array vs => valuesBounded w vs

/-- Predicate `valueBounded` applied to every element of a list. -/
def valuesBounded (w : ℤ) : List Value → Bool
  | [] => true
  | v :: rest => valueBounded w v && valuesBounded w rest

end

/-- Every operand index of the instruction lies in `[0, w)`. -/
def instrBounded (w : ℤ) : Instruction → Bool
  | .ccx t cs => idxOk w t && idxOk w cs.1 && idxOk w cs.2
  | .rzz t c _ => idxOk w t && idxOk w c
  | .cnot t c => idxOk w t && idxOk w c
  | .swap ts => idxOk w ts.1 && idxOk w ts.2
  | .h t => idxOk w t
  | .s t => idxOk w t
  | .x t => idxOk w t
  | .y t => idxOk w t
  | .z t => idxOk w t
  | .rx t _ => idxOk w t
  | .ry t _ => idxOk w t
  | .rz t _ => idxOk w t

/-- Every value bound in the environment is bounded by `w`. -/
def envBounded (w : ℤ) (env : Env) : Bool :=
  env.all (fun p => valueBounded w p.2)

/-- The inductive invariant of the lowering pass: the counter is
non-negative and every reference in the environment and every emitted
instruction is bounded by it. -/
def stateInv (st : VisitorState) : Prop :=
  0 ≤ st.width ∧ envBounded st.width st.env = true ∧
    st.instructions.all (instrBounded st.width) = true

/-- The statement's size designator (if it has one) does not evaluate to a
negative count in the given environment. -/
def stmtCountNonneg (env : Env) : Stmt → Prop
  | .oldStyleDecl _ _ (some d) => ∀ c, desigCount env d = .ok c → 0 ≤ c
  | .quantumDecl _ (some d) => ∀ c, desigCount env d = .ok c → 0 ≤ c
  | _ => True

/-- Along the whole run, no register declaration's designator evaluates to
a negative count. -/
def NonNegRun : VisitorState → List Stmt → Prop
  | _, [] => True
  | st, stmt :: rest => stmtCountNonneg st.env stmt ∧
      ∀ st', runStmt st stmt = .ok st' → NonNegRun st' rest

@[simp]
theorem ok_bind {ε α β : Type} (a : α) (f : α → Except ε β) :
    (Except.ok a >>= f) = f a := rfl

@[simp]
theorem error_bind {ε α β : Type} (e : ε) (f : α → Except ε β) :
    ((Except.error e : Except ε α) >>= f) = .error e := rfl

theorem bind_eq_ok {ε α β : Type} {m : Except ε α} {f : α → Except ε β}
    {b : β} (h : (m >>= f) = .ok b) : ∃ a, m = .ok a ∧ f a = .ok b := by
  cases m with
  | ok a => exact ⟨a, rfl, h⟩
  | error e => simp at h

/-- C1: `_Int.__truediv__` computes `self.value / other.value`, which in
Python is true division on two `int`s and therefore always yields a
`float`; the `isinstance(result, int)` branch that would return an `_Int`
for an exact quotient is unreachable, so `Int / Int` with a nonzero
divisor always evaluates to the `Float` of true division — including for
exact quotients such as `6/3`, which yields `Float(2.0)` rather than the
documented `Int(2)`. -/
theorem int_int_division_always_float (a b : ℤ) (hb : b ≠ 0) :
    valueDiv (.int a) (.int b) = .ok (.float ((a : ℚ) / (b : ℚ))) := by
  simp [valueDiv, pyIntTrueDiv, hb]

/-- Witness for `int_int_division_always_float` at the exact quotient
`6 / 3`: the result is `Float(2.0)`, not `Int(2)`. -/
theorem int_int_division_always_float_witness :
    (3 : ℤ) ≠ 0 ∧
      valueDiv (.int 6) (.int 3) = .ok (.float ((6 : ℤ) / ((3 : ℤ) : ℚ))) ∧
      ((6 : ℤ) : ℚ) / ((3 : ℤ) : ℚ) = 2 :=
  ⟨by decide, int_int_division_always_float 6 3 (by decide), by norm_num⟩

/-- C2 counterexample: the register declaration `qubit[0] q;` (size
designator evaluating to `Int 0`) does not fail — lowering succeeds,
binds `q` to an empty `_Array`, and leaves `width` at 0. -/
theorem zero_designator_silently_accepted :
    (runStmts initState [Stmt.quantumDecl "q" (some (Expr.intLit 0))]).map
      (fun st => (st.width, envGet st.env "q")) =
      .ok ((0 : ℤ), some (.array [])) := by rfl

/-- C2 amended: a register declaration whose size designator evaluates to
an `Int` that is zero or negative is accepted without any error:
`range(count)` is empty, so the identifier is silently bound to an empty
`Array` and `width` is advanced by the (possibly negative) count. -/
theorem nonpos_designator_binds_empty_array (st : VisitorState)
    (kind : RegKind) (identifier : String) (d : Expr) (c : ℤ)
    (hc : desigCount st.env d = .ok c) (hle : c ≤ 0) :
    declare_registers st kind identifier (some d) =
      .ok { st with
              width := st.width + c
              env := envSet st.env identifier (.array []) } := by
  have hz : c.toNat = 0 := by omega
  simp [declare_registers, hc, hz]

/-- Witness for `nonpos_designator_binds_empty_array` at the initial
state with designator literal `0`. -/
theorem nonpos_designator_binds_empty_array_witness :
    desigCount initState.env (Expr.intLit 0) = .ok 0 ∧ (0 : ℤ) ≤ 0 ∧
      declare_registers initState .qreg "q" (some (Expr.intLit 0)) =
        .ok { initState with
                width := initState.width + 0
                env := envSet initState.env "q" (.array []) } :=
  ⟨rfl, le_refl 0,
    nonpos_designator_binds_empty_array initState .qreg "q"
      (Expr.intLit 0) 0 rfl (le_refl 0)⟩

/-- C3: a register declaration (qubit or classical-bit — both use the
same running counter `width`) whose designator evaluates to `Int c` with
`c > 0` binds the identifier to an `Array` of exactly `c` references whose
indices are `width, width+1, …, width+c-1` (consecutive and strictly
increasing, starting at the pre-declaration counter), and advances `width`
by exactly `c`; a declaration without a designator binds a scalar
reference at the pre-declaration counter and advances `width` by exactly
1. -/
theorem declare_registers_allocation :
    (∀ (st : VisitorState) (kind : RegKind) (identifier : String)
       (d : Expr) (c : ℤ), desigCount st.env d = .ok c → 0 < c →
      ∃ vs, declare_registers st kind identifier (some d) =
          .ok ⟨st.width + c, st.instructions,
                envSet st.env identifier (.array vs)⟩ ∧
        (vs.length : ℤ) = c ∧
        ∀ i (h : i < vs.length),
          vs.get ⟨i, h⟩ = kind.mkRef (st.width + (i : ℤ))) ∧
    (∀ (st : VisitorState) (kind : RegKind) (identifier : String),
      declare_registers st kind identifier none =
        .ok ⟨st.width + 1, st.instructions,
              envSet st.env identifier (kind.mkRef st.width)⟩) := by
  constructor
  · intro st kind identifier d c hc hpos
    refine ⟨(List.range c.toNat).map
      (fun i : ℕ => kind.mkRef (st.width + (i : ℤ))), ?_, ?_, ?_⟩
    · simp [declare_registers, hc]
    · simp only [List.length_map, List.length_range]; omega
    · intro i h
      simp only [List.get_eq_getElem, List.getElem_map, List.getElem_range]
  · intro st kind identifier
    rfl

/-- Witness for `declare_registers_allocation`: declaring `q[2]` from the
initial state. -/
theorem declare_registers_allocation_witness :
    desigCount initState.env (Expr.intLit 2) = .ok 2 ∧ (0 : ℤ) < 2 ∧
      (∃ vs, declare_registers initState .qreg "q" (some (Expr.intLit 2)) =
          .ok ⟨initState.width + 2, initState.instructions,
                envSet initState.env "q" (.array vs)⟩ ∧
        (vs.length : ℤ) = 2 ∧
        ∀ i (h : i < vs.length),
          vs.get ⟨i, h⟩ = RegKind.qreg.mkRef (initState.width + (i : ℤ))) :=
  ⟨rfl, by decide,
    declare_registers_allocation.1 initState .qreg "q"
      (Expr.intLit 2) 2 rfl (by decide)⟩

/-- Helper: a gate name outside the dispatch table falls through every
branch of the `if`/`elif` chain to `raise NotImplementedError("Unknown
gate")`. -/
theorem dispatchGate_of_not_mem (gate : String) (os : List ℤ)
    (angles : List ℚ) (hmem : gate ∉ gateNames) :
    dispatchGate gate os angles = .error .notImplementedError := by
  simp only [gateNames, List.mem_cons, List.not_mem_nil, or_false] at hmem
  push_neg at hmem
  obtain ⟨h1, h2, h3, h4, h5, h6, h7, h8, h9, h10, h11, h12⟩ := hmem
  simp [dispatchGate, h1, h2, h3, h4, h5, h6, h7, h8, h9, h10, h11, h12]

/-- C5: gate dispatch.  (1) Whenever operand resolution, angle resolution
and the dispatch table produce an instruction, `visitGateCallStatement`
appends exactly that instruction.  (2) Each of the 12 table entries, on
correctly-shaped operand/angle lists, produces exactly the listed
instruction with operands and angles in the stated positions (the spec's
`ControlledRZ` is the graphix `RZZ` constructor).  (3) Any name outside
the table fails with the unknown-gate error. -/
theorem gate_call_dispatch :
    (∀ (st : VisitorState) (gate : String) (operandList : List Operand)
       (exprList : Option (List Expr)) (os : List ℤ) (angles : List ℚ)
       (instruction : Instruction),
      operandList.mapM (convert_qubit_index st.env) = .ok os →
      resolveAngles st.env exprList = .ok angles →
      dispatchGate gate os angles = .ok instruction →
      visitGateCallStatement st gate operandList exprList =
        .ok { st with
                instructions := st.instructions ++ [instruction] }) ∧
    (∀ (i j k : ℤ) (a : ℚ),
      dispatchGate "ccx" [i, j, k] [] = .ok (.ccx k (i, j)) ∧
      dispatchGate "crz" [i, j] [a] = .ok (.rzz j i a) ∧
      dispatchGate "cx" [i, j] [] = .ok (.cnot j i) ∧
      dispatchGate "swap" [i, j] [] = .ok (.swap (i, j)) ∧
      dispatchGate "h" [i] [] = .ok (.h i) ∧
      dispatchGate "s" [i] [] = .ok (.s i) ∧
      dispatchGate "x" [i] [] = .ok (.x i) ∧
      dispatchGate "y" [i] [] = .ok (.y i) ∧
      dispatchGate "z" [i] [] = .ok (.z i) ∧
      dispatchGate "rx" [i] [a] = .ok (.rx i a) ∧
      dispatchGate "ry" [i] [a] = .ok (.ry i a) ∧
      dispatchGate "rz" [i] [a] = .ok (.rz i a)) ∧
    (∀ (gate : String) (os : List ℤ) (angles : List ℚ),
      gate ∉ gateNames →
      dispatchGate gate os angles = .error .notImplementedError) := by
  refine ⟨?_, ?_, ?_⟩
  · intro st gate operandList exprList os angles instruction hos hangles hdisp
    unfold visitGateCallStatement
    rw [hos, ok_bind, hangles, ok_bind, hdisp, ok_bind]
  · intro i j k a
    refine ⟨rfl, rfl, rfl, rfl, rfl, rfl, rfl, rfl, rfl, rfl, rfl, rfl⟩
  · intro gate os angles hmem
    exact dispatchGate_of_not_mem gate os angles hmem

/-- Witness for `gate_call_dispatch`: a concrete `h q[0]` call from a
one-qubit state, and the unknown name `"foo"`. -/
theorem gate_call_dispatch_witness :
    (let st : VisitorState :=
      ⟨1, [], envSet initState.env "q" (.array [.qubit 0])⟩
    visitGateCallStatement st "h" [.indexedIdent "q" [.intLit 0]] none =
      .ok { st with instructions := [Instruction.h 0] }) ∧
    dispatchGate "ccx" [0, 1, 2] [] = .ok (.ccx 2 (0, 1)) ∧
    dispatchGate "foo" [0] [] = .error .notImplementedError := by
  refine ⟨?_, (gate_call_dispatch.2.1 0 1 2 0).1, ?_⟩
  · exact gate_call_dispatch.1 _ "h" _ none [0] [] (.h 0) rfl rfl rfl
  · exact gate_call_dispatch.2.2 "foo" [0] [] (by decide)

/-- C10: gate-name dispatch is exact-string and case-sensitive — a name
that differs from a dispatch-table entry only in letter case (so its
lowercasing is a table entry but the name itself is not equal to it)
falls through the whole chain and fails with the unknown-gate error
instead of dispatching. -/
theorem gate_dispatch_case_sensitive (gate entry : String) (os : List ℤ)
    (angles : List ℚ) (_hentry : entry ∈ gateNames)
    (hlow : strToLower gate = entry) (hne : gate ≠ entry) :
    dispatchGate gate os angles = .error .notImplementedError := by
  apply dispatchGate_of_not_mem
  intro hmem
  have hself : strToLower gate = gate := by
    simp only [gateNames, List.mem_cons, List.not_mem_nil, or_false] at hmem
    rcases hmem with h | h | h | h | h | h | h | h | h | h | h | h <;>
      (subst h; decide)
  exact hne (hself.symm.trans hlow)

/-- Witness for `gate_dispatch_case_sensitive` at `"H"` (case variant of
table entry `"h"`). -/
theorem gate_dispatch_case_sensitive_witness :
    "h" ∈ gateNames ∧ strToLower "H" = "h" ∧ "H" ≠ "h" ∧
      dispatchGate "H" [0] [] = .error .notImplementedError :=
  ⟨by decide, by decide, by decide,
    gate_dispatch_case_sensitive "H" "h" [0] [] (by decide) (by decide)
      (by decide)⟩

/-- C6: indexing semantics of `evaluate_operand`.  For a name bound to an
N-element `_Array` and an index expression evaluating to `Int i`:
a negative `i` or `i ≥ N` fails with `IndexError`, and `0 ≤ i < N`
succeeds returning exactly element `i`; indexing a name bound to a
non-array fails with `TypeError`; a non-`Int` index fails with
`TypeError`. -/
theorem array_indexing_bounds :
    (∀ (env : Env) (name : String) (vs : List Value) (ie : Expr) (i : ℤ),
      envGet env name = some (.array vs) →
      evalExpr env ie = .ok (.int i) →
      ((i < 0 ∨ (vs.length : ℤ) ≤ i) →
        evaluate_operand env (.indexedIdent name [ie]) =
          .error .indexError) ∧
      (0 ≤ i → i < (vs.length : ℤ) →
        evaluate_operand env (.indexedIdent name [ie]) =
          .ok (vs.getD i.toNat (.int 0)))) ∧
    (∀ (env : Env) (name : String) (v : Value) (ie : Expr),
      envGet env name = some v → (∀ vs, v ≠ .array vs) →
      evaluate_operand env (.indexedIdent name [ie]) = .error .typeError) ∧
    (∀ (env : Env) (name : String) (vs : List Value) (ie : Expr) (v : Value),
      envGet env name = some (.array vs) → evalExpr env ie = .ok v →
      (∀ j : ℤ, v ≠ .int j) →
      evaluate_operand env (.indexedIdent name [ie]) = .error .typeError) := by
  refine ⟨?_, ?_, ?_⟩
  · intro env name vs ie i hget hie
    constructor
    · intro herr
      rcases herr with h0 | hlen
      · simp [evaluate_operand, hget, indexValue, hie, valueToInt, h0]
      · have h0 : ¬ i < 0 := by omega
        simp [evaluate_operand, hget, indexValue, hie, valueToInt, h0, hlen]
    · intro hge hlt
      have h0 : ¬ i < 0 := by omega
      have hlen : ¬ (vs.length : ℤ) ≤ i := by omega
      simp only [evaluate_operand, hget, indexValue, hie, valueToInt, h0,
        hlen, dite_false, dif_neg, not_false_iff]
      have hnat : i.toNat < vs.length := by omega
      rw [List.getD_eq_getElem vs (.int 0) hnat]
      simp [indexValue, List.get_eq_getElem]
  · intro env name v ie hget hne
    cases v with
    | array vs => exact absurd rfl (hne vs)
    | int a => simp [evaluate_operand, hget, indexValue]
    | float a => simp [evaluate_operand, hget, indexValue]
    | bit a => simp [evaluate_operand, hget, indexValue]
    | qubit a => simp [evaluate_operand, hget, indexValue]
  · intro env name vs ie v hget hie hne
    cases v with
    | int j => exact absurd rfl (hne j)
    | float a => simp [evaluate_operand, hget, indexValue, hie, valueToInt]
    | bit a => simp [evaluate_operand, hget, indexValue, hie, valueToInt]
    | qubit a => simp [evaluate_operand, hget, indexValue, hie, valueToInt]
    | array ws => simp [evaluate_operand, hget, indexValue, hie, valueToInt]

/-- Witness for `array_indexing_bounds` on a two-element array: index 1
succeeds with element 1, index 2 fails with `IndexError`. -/
theorem array_indexing_bounds_witness :
    envGet [("arr", Value.array [.int 10, .int 20])] "arr" =
        some (.array [.int 10, .int 20]) ∧
    evaluate_operand [("arr", Value.array [.int 10, .int 20])]
        (.indexedIdent "arr" [.intLit 1]) = .ok (.int 20) ∧
    evaluate_operand [("arr", Value.array [.int 10, .int 20])]
        (.indexedIdent "arr" [.intLit 2]) = .error .indexError := by
  refine ⟨rfl, ?_, ?_⟩
  · have h := (array_indexing_bounds.1 [("arr", Value.array [.int 10, .int 20])]
      "arr" [.int 10, .int 20] (.intLit 1) 1 rfl rfl).2 (by norm_num)
      (by norm_num)
    simpa using h
  · exact (array_indexing_bounds.1 [("arr", Value.array [.int 10, .int 20])]
      "arr" [.int 10, .int 20] (.intLit 2) 2 rfl rfl).1 (by norm_num)

/-- C7 counterexample: an identifier that is not bound in the environment,
evaluated as a bare-identifier expression, fails with the "Unknown
literal" `NotImplementedError` (the spec's UnparseableExpression class),
not with the `NameError` that the spec's UndefinedName kind denotes. -/
theorem unbound_identifier_expression_error :
    evalExpr initState.env (.ident "foo") = .error .notImplementedError ∧
      Err.notImplementedError ≠ Err.nameError :=
  ⟨rfl, by decide⟩

/-- C7 amended: a bound identifier evaluates to its bound value; an
unbound identifier in expression position (angles, constant initializers)
fails with the "Unknown literal" `NotImplementedError`; only an unbound
identifier used as a gate-operand base name fails with `NameError`
(UndefinedName). -/
theorem identifier_lookup :
    (∀ (env : Env) (name : String) (v : Value), envGet env name = some v →
      evalExpr env (.ident name) = .ok v) ∧
    (∀ (env : Env) (name : String), envGet env name = none →
      evalExpr env (.ident name) = .error .notImplementedError) ∧
    (∀ (env : Env) (name : String), envGet env name = none →
      evaluate_operand env (.indexedIdent name []) = .error .nameError) := by
  refine ⟨?_, ?_, ?_⟩
  · intro env name v h; simp [evalExpr, h]
  · intro env name h; simp [evalExpr, h]
  · intro env name h; simp [evaluate_operand, h]

/-- Witness for `identifier_lookup`: `pi` is bound in the initial
environment, `foo` is not. -/
theorem identifier_lookup_witness :
    evalExpr initState.env (.ident "pi") = .ok (.float mathPi) ∧
      evalExpr initState.env (.ident "foo") = .error .notImplementedError ∧
      evaluate_operand initState.env (.indexedIdent "foo" []) =
        .error .nameError :=
  ⟨identifier_lookup.1 initState.env "pi" (.float mathPi) rfl,
    identifier_lookup.2.1 initState.env "foo" rfl,
    identifier_lookup.2.2 initState.env "foo" rfl⟩

/-- C8: mixed `Int`/`Float` arithmetic (either order): `+ - * /` yield
the `Float` of the exact arithmetic result (with `/` defined for a
nonzero divisor), `%` fails with `TypeError`, and unary minus preserves
the operand's kind. -/
theorem mixed_int_float_arithmetic (a : ℤ) (q : ℚ) :
    valueAdd (.int a) (.float q) = .ok (.float ((a : ℚ) + q)) ∧
    valueAdd (.float q) (.int a) = .ok (.float (q + (a : ℚ))) ∧
    valueSub (.int a) (.float q) = .ok (.float ((a : ℚ) - q)) ∧
    valueSub (.float q) (.int a) = .ok (.float (q - (a : ℚ))) ∧
    valueMul (.int a) (.float q) = .ok (.float ((a : ℚ) * q)) ∧
    valueMul (.float q) (.int a) = .ok (.float (q * (a : ℚ))) ∧
    (q ≠ 0 → valueDiv (.int a) (.float q) = .ok (.float ((a : ℚ) / q))) ∧
    (a ≠ 0 → valueDiv (.float q) (.int a) = .ok (.float (q / (a : ℚ)))) ∧
    valueMod (.int a) (.float q) = .error .typeError ∧
    valueMod (.float q) (.int a) = .error .typeError ∧
    valueNeg (.int a) = .ok (.int (-a)) ∧
    valueNeg (.float q) = .ok (.float (-q)) := by
  refine ⟨rfl, rfl, rfl, rfl, rfl, rfl, ?_, ?_, rfl, rfl, rfl, rfl⟩
  · intro hq; simp [valueDiv, hq]
  · intro ha; simp [valueDiv, ha]

/-- Witness for `mixed_int_float_arithmetic` at `a = 1`, `q = 1/2`. -/
theorem mixed_int_float_arithmetic_witness :
    ((1 : ℚ) / 2 ≠ 0) ∧
      valueDiv (.int 1) (.float (1/2)) =
        .ok (.float (((1 : ℤ) : ℚ) / ((1 : ℚ) / 2))) ∧
      valueMod (.int 1) (.float (1/2)) = .error .typeError := by
  refine ⟨by norm_num, ?_, ?_⟩
  · exact (mixed_int_float_arithmetic 1 (1/2)).2.2.2.2.2.2.1 (by norm_num)
  · exact (mixed_int_float_arithmetic 1 (1/2)).2.2.2.2.2.2.2.2.1

/-- Helper: bounds of Python-style floored modulo for a negative
divisor. -/
theorem fmod_bounds_of_neg (a : ℤ) {b : ℤ} (hb : b < 0) :
    b < Int.fmod a b ∧ Int.fmod a b ≤ 0 := by
  cases b with
  | ofNat n =>
    have hge : (0 : ℤ) ≤ Int.ofNat n := Int.ofNat_nonneg n
    omega
  | negSucc n =>
    cases a with
    | ofNat m =>
      cases m with
      | zero =>
        rw [show Int.fmod (Int.ofNat 0) (Int.negSucc n) = 0 from rfl]
        exact ⟨Int.negSucc_lt_zero n, le_refl 0⟩
      | succ m =>
        rw [show Int.fmod (Int.ofNat (m+1)) (Int.negSucc n) =
              Int.subNatNat (m % (n+1)) n from rfl,
            Int.subNatNat_eq_coe, Int.negSucc_eq]
        have hmod : m % (n+1) < n+1 := Nat.mod_lt m (by omega)
        constructor <;> omega
    | negSucc m =>
      rw [show Int.fmod (Int.negSucc m) (Int.negSucc n) =
            -((((m+1) % (n+1) : ℕ)) : ℤ) from rfl, Int.negSucc_eq]
      have hmod : (m+1) % (n+1) < n+1 := Nat.mod_lt (m+1) (by omega)
      constructor <;> omega

/-- C9: `Int % Int` with a nonzero divisor is Python's floored modulo:
the result `r` satisfies `b * (a fdiv b) + r = a`, with `0 ≤ r < b` for a
positive divisor and `b < r ≤ 0` for a negative one (sign follows the
divisor). -/
theorem int_mod_floored (a b : ℤ) (hb : b ≠ 0) :
    valueMod (.int a) (.int b) = .ok (.int (Int.fmod a b)) ∧
    b * (a.fdiv b) + Int.fmod a b = a ∧
    (0 < b → 0 ≤ Int.fmod a b ∧ Int.fmod a b < b) ∧
    (b < 0 → b < Int.fmod a b ∧ Int.fmod a b ≤ 0) := by
  refine ⟨by simp [valueMod, hb], Int.fdiv_add_fmod a b, ?_, ?_⟩
  · intro hpos
    exact ⟨Int.fmod_nonneg' a hpos, Int.fmod_lt_of_pos a hpos⟩
  · intro hneg
    exact fmod_bounds_of_neg a hneg

/-- Witness for `int_mod_floored` at `(-7) % 3 = Int(2)`. -/
theorem int_mod_floored_witness :
    (3 : ℤ) ≠ 0 ∧
      valueMod (.int (-7)) (.int 3) = .ok (.int (Int.fmod (-7) 3)) ∧
      Int.fmod (-7) 3 = 2 :=
  ⟨by decide, (int_mod_floored (-7) 3 (by decide)).1, by decide⟩

/-- C4 counterexample: lowering the program `qubit[2] q; qubit[-2] r;
h q[1];` succeeds and returns width 0 with the instruction `H 1`, whose
operand index 1 is not in `[0, 0)`; moreover `width` decreased from 2 to
0 when the negative designator was processed. -/
theorem negative_designator_breaks_bounds :
    (runStmts initState
        [Stmt.quantumDecl "q" (some (Expr.intLit 2))]).map
      (fun st => st.width) = .ok (2 : ℤ) ∧
    (runStmts initState
        [Stmt.quantumDecl "q" (some (Expr.intLit 2)),
         Stmt.quantumDecl "r" (some (Expr.neg (Expr.intLit 2))),
         Stmt.gateCall "h" [Operand.indexedIdent "q" [Expr.intLit 1]]
           none]).map
      (fun st => (st.width, st.instructions)) =
        .ok ((0 : ℤ), [Instruction.h 1]) ∧
    idxOk 0 1 = false ∧ instrBounded 0 (Instruction.h 1) = false :=
  ⟨rfl, rfl, by decide, by decide⟩

/-- Helper: `idxOk` is monotone in the width bound. -/
theorem idxOk_mono {w w' i : ℤ} (hw : w ≤ w') (h : idxOk w i = true) :
    idxOk w' i = true := by
  simp only [idxOk, Bool.and_eq_true, decide_eq_true_eq] at h ⊢
  omega

mutual

/-- Helper: `valueBounded` is monotone in the width bound. -/
theorem valueBounded_mono {w w' : ℤ} (hw : w ≤ w') :
    ∀ (v : Value), valueBounded w v = true → valueBounded w' v = true
  | .int _, _ => rfl
  | .float _, _ => rfl
  | .bit _, h => idxOk_mono hw h
  | .qubit _, h => idxOk_mono hw h
  | .array vs, h => valuesBounded_mono hw vs h

/-- Helper: `valuesBounded` is monotone in the width bound. -/
theorem valuesBounded_mono {w w' : ℤ} (hw : w ≤ w') :
    ∀ (vs : List Value), valuesBounded w vs = true →
      valuesBounded w' vs = true
  | [], _ => rfl
  | v :: rest, h => by
      simp only [valuesBounded, Bool.and_eq_true] at h ⊢
      exact ⟨valueBounded_mono hw v h.1, valuesBounded_mono hw rest h.2⟩

end

/-- Helper: `instrBounded` is monotone in the width bound. -/
theorem instrBounded_mono {w w' : ℤ} (hw : w ≤ w') (instr : Instruction)
    (h : instrBounded w instr = true) : instrBounded w' instr = true := by
  cases instr <;>
    simp only [instrBounded, Bool.and_eq_true, idxOk,
      decide_eq_true_eq] at h ⊢ <;>
    omega

/-- Helper: `envBounded` is monotone in the width bound. -/
theorem envBounded_mono {w w' : ℤ} (hw : w ≤ w') {env : Env}
    (h : envBounded w env = true) : envBounded w' env = true := by
  simp only [envBounded, List.all_eq_true] at h ⊢
  exact fun p hp => valueBounded_mono hw p.2 (h p hp)

/-- Helper: a list of bounded instructions stays bounded as the width
grows. -/
theorem instrs_bounded_mono {w w' : ℤ} (hw : w ≤ w')
    {l : List Instruction} (h : l.all (instrBounded w) = true) :
    l.all (instrBounded w') = true := by
  simp only [List.all_eq_true] at h ⊢
  exact fun i hi => instrBounded_mono hw i (h i hi)

/-- Helper: a value looked up in a bounded environment is bounded. -/
theorem envGet_bounded {w : ℤ} {env : Env} {name : String} {v : Value}
    (hb : envBounded w env = true) (hg : envGet env name = some v) :
    valueBounded w v = true := by
  induction env with
  | nil => simp [envGet] at hg
  | cons p rest ih =>
      simp only [envBounded, List.all_cons, Bool.and_eq_true] at hb
      simp only [envGet] at hg
      by_cases hk : p.1 = name
      · rw [if_pos hk] at hg
        injection hg with hg
        rw [← hg]
        exact hb.1
      · rw [if_neg hk] at hg
        exact ih (by simpa [envBounded] using hb.2) hg

/-- Helper: numeric values are bounded by any width. -/
theorem isNumeric_bounded {w : ℤ} {v : Value} (h : v.isNumeric = true) :
    valueBounded w v = true := by
  cases v <;> first | rfl | simp [Value.isNumeric] at h

/-- Helper: unary minus only succeeds with a numeric result. -/
theorem valueNeg_numeric {l v : Value} (h : valueNeg l = .ok v) :
    v.isNumeric = true := by
  cases l <;> simp only [valueNeg] at h <;>
    first
    | (injection h with h; rw [← h]; rfl)
    | exact absurd h (by simp)

/-- Helper: every binary operator only succeeds with a numeric result. -/
theorem applyBinOp_numeric {op : BinOp} {l r v : Value}
    (h : applyBinOp op l r = .ok v) : v.isNumeric = true := by
  cases op <;> cases l <;> cases r <;>
      simp only [applyBinOp, valueAdd, valueSub, valueMul, valueDiv,
        valueMod, pyIntTrueDiv] at h
  all_goals (repeat' split at h)
  all_goals simp at h
  all_goals (rw [← h]; rfl)

/-- Helper: evaluating an expression in a bounded environment yields a
bounded value. -/
theorem evalExpr_bounded {w : ℤ} {env : Env}
    (henv : envBounded w env = true) :
    ∀ (e : Expr) {v : Value}, evalExpr env e = .ok v →
      valueBounded w v = true
  | .paren e, _, h => evalExpr_bounded henv e h
  | .neg e, v, h => by
      simp only [evalExpr] at h
      cases he : evalExpr env e with
      | error err => rw [he] at h; exact absurd h (by simp)
      | ok u => rw [he] at h; exact isNumeric_bounded (valueNeg_numeric h)
  | .binop op l r, v, h => by
      simp only [evalExpr] at h
      cases hl : evalExpr env l with
      | error err => rw [hl] at h; exact absurd h (by simp)
      | ok lv =>
          rw [hl] at h
          cases hr : evalExpr env r with
          | error err => rw [hr] at h; exact absurd h (by simp)
          | ok rv =>
              rw [hr] at h
              exact isNumeric_bounded (applyBinOp_numeric h)
  | .intLit n, v, h => by
      simp only [evalExpr] at h
      injection h with h
      rw [← h]; rfl
  | .floatLit q, v, h => by
      simp only [evalExpr] at h
      injection h with h
      rw [← h]; rfl
  | .ident name, v, h => by
      simp only [evalExpr] at h
      cases hg : envGet env name with
      | none => rw [hg] at h; exact absurd h (by simp)
      | some u =>
          rw [hg] at h
          injection h with h
          rw [← h]
          exact envGet_bounded henv hg

/-- Helper: `valuesBounded` is `valueBounded` on every element. -/
theorem valuesBounded_iff {w : ℤ} {vs : List Value} :
    valuesBounded w vs = true ↔ ∀ v ∈ vs, valueBounded w v = true := by
  induction vs with
  | nil => simp [valuesBounded]
  | cons v rest ih => simp [valuesBounded, ih]

/-- Helper: an element selected from a bounded list is bounded. -/
theorem valuesBounded_get {w : ℤ} {vs : List Value}
    (h : valuesBounded w vs = true) (i : ℕ) (hi : i < vs.length) :
    valueBounded w (vs.get ⟨i, hi⟩) = true :=
  valuesBounded_iff.mp h _ (List.get_mem vs i hi)

/-- Helper: the index-operator loop preserves boundedness. -/
theorem indexValue_bounded {w : ℤ} {env : Env}
    (henv : envBounded w env = true) :
    ∀ (idxs : List Expr) (v : Value), valueBounded w v = true →
      ∀ {v' : Value}, indexValue env v idxs = .ok v' →
        valueBounded w v' = true
  | [], v, hv, v', h => by
      simp only [indexValue] at h
      injection h with h
      rw [← h]; exact hv
  | idx :: rest, v, hv, v', h => by
      cases v with
      | int a => simp [indexValue] at h
      | float a => simp [indexValue] at h
      | bit a => simp [indexValue] at h
      | qubit a => simp [indexValue] at h
      | array vs =>
          simp only [indexValue] at h
          cases hie : evalExpr env idx with
          | error err => rw [hie] at h; exact absurd h (by simp)
          | ok iv =>
              rw [hie] at h
              dsimp only at h
              cases hti : valueToInt iv with
              | error err => rw [hti] at h; exact absurd h (by simp)
              | ok i =>
                  rw [hti] at h
                  dsimp only at h
                  split at h
                  · exact absurd h (by simp)
                  · split at h
                    · exact absurd h (by simp)
                    · exact indexValue_bounded henv rest _
                        (valuesBounded_get hv _ _) h

/-- Helper: a resolved qubit operand index is in range. -/
theorem convert_qubit_index_bounded {w : ℤ} {env : Env}
    (henv : envBounded w env = true) {op : Operand} {i : ℤ}
    (h : convert_qubit_index env op = .ok i) : idxOk w i = true := by
  unfold convert_qubit_index at h
  cases heo : evaluate_operand env op with
  | error err => rw [heo] at h; exact absurd h (by simp)
  | ok v =>
      rw [heo] at h
      have hb : valueBounded w v = true := by
        cases op with
        | hardwareQubit t => simp [evaluate_operand] at heo
        | indexedIdent name idxs =>
            simp only [evaluate_operand] at heo
            cases hg : envGet env name with
            | none => rw [hg] at heo; exact absurd heo (by simp)
            | some u =>
                rw [hg] at heo
                exact indexValue_bounded henv idxs u
                  (envGet_bounded henv hg) heo
      cases v with
      | qubit j =>
          injection h with h
          rw [← h]
          exact hb
      | int a => simp at h
      | float a => simp at h
      | bit a => simp at h
      | array vs => simp at h

/-- Helper: every index produced by resolving an operand list is in
range. -/
theorem mapM_convert_bounded {w : ℤ} {env : Env}
    (henv : envBounded w env = true) :
    ∀ {ops : List Operand} {os : List ℤ},
      ops.mapM (convert_qubit_index env) = .ok os →
      ∀ i ∈ os, idxOk w i = true := by
  intro ops
  induction ops with
  | nil =>
      intro os h i hi
      simp only [List.mapM_nil] at h
      injection h with h
      rw [← h] at hi
      simp at hi
  | cons op rest ih =>
      intro os h i hi
      rw [List.mapM_cons] at h
      obtain ⟨b, hb, h⟩ := bind_eq_ok h
      obtain ⟨bs, hbs, h⟩ := bind_eq_ok h
      injection h with h
      rw [← h] at hi
      rcases List.mem_cons.mp hi with hieq | himem
      · rw [hieq]; exact convert_qubit_index_bounded henv hb
      · exact ih hbs i himem

/-- Helper: a successful Python list subscription returns an element of
the list. -/
theorem listGet_ok_mem {α : Type} {l : List α} {n : ℕ} {a : α}
    (h : listGet l n = .ok a) : a ∈ l := by
  unfold listGet at h
  cases hg : l.get? n with
  | none => rw [hg] at h; exact absurd h (by simp)
  | some b =>
      rw [hg] at h
      injection h with h
      rw [← h]
      exact List.get?_mem hg

/-- Helper: a dispatched instruction built from in-range operand indices
is bounded. -/
theorem dispatchGate_bounded {w : ℤ} {gate : String} {os : List ℤ}
    {angles : List ℚ} {instr : Instruction}
    (hos : ∀ i ∈ os, idxOk w i = true)
    (h : dispatchGate gate os angles = .ok instr) :
    instrBounded w instr = true := by
  unfold dispatchGate at h
  by_cases hg1 : gate = "ccx"
  · rw [if_pos hg1] at h
    obtain ⟨t, ht, h⟩ := bind_eq_ok h
    obtain ⟨c0, hc0, h⟩ := bind_eq_ok h
    obtain ⟨c1, hc1, h⟩ := bind_eq_ok h
    injection h with h
    rw [← h]
    simp only [instrBounded, Bool.and_eq_true]
    exact ⟨⟨hos t (listGet_ok_mem ht), hos c0 (listGet_ok_mem hc0)⟩,
      hos c1 (listGet_ok_mem hc1)⟩
  rw [if_neg hg1] at h
  by_cases hg2 : gate = "crz"
  · rw [if_pos hg2] at h
    obtain ⟨t, ht, h⟩ := bind_eq_ok h
    obtain ⟨c, hc, h⟩ := bind_eq_ok h
    obtain ⟨a, ha, h⟩ := bind_eq_ok h
    injection h with h
    rw [← h]
    simp only [instrBounded, Bool.and_eq_true]
    exact ⟨hos t (listGet_ok_mem ht), hos c (listGet_ok_mem hc)⟩
  rw [if_neg hg2] at h
  by_cases hg3 : gate = "cx"
  · rw [if_pos hg3] at h
    obtain ⟨t, ht, h⟩ := bind_eq_ok h
    obtain ⟨c, hc, h⟩ := bind_eq_ok h
    injection h with h
    rw [← h]
    simp only [instrBounded, Bool.and_eq_true]
    exact ⟨hos t (listGet_ok_mem ht), hos c (listGet_ok_mem hc)⟩
  rw [if_neg hg3] at h
  by_cases hg4 : gate = "swap"
  · rw [if_pos hg4] at h
    obtain ⟨t0, ht0, h⟩ := bind_eq_ok h
    obtain ⟨t1, ht1, h⟩ := bind_eq_ok h
    injection h with h
    rw [← h]
    simp only [instrBounded, Bool.and_eq_true]
    exact ⟨hos t0 (listGet_ok_mem ht0), hos t1 (listGet_ok_mem ht1)⟩
  rw [if_neg hg4] at h
  by_cases hg5 : gate = "h"
  · rw [if_pos hg5] at h
    obtain ⟨t, ht, h⟩ := bind_eq_ok h
    injection h with h
    rw [← h]
    exact hos t (listGet_ok_mem ht)
  rw [if_neg hg5] at h
  by_cases hg6 : gate = "s"
  · rw [if_pos hg6] at h
    obtain ⟨t, ht, h⟩ := bind_eq_ok h
    injection h with h
    rw [← h]
    exact hos t (listGet_ok_mem ht)
  rw [if_neg hg6] at h
  by_cases hg7 : gate = "x"
  · rw [if_pos hg7] at h
    obtain ⟨t, ht, h⟩ := bind_eq_ok h
    injection h with h
    rw [← h]
    exact hos t (listGet_ok_mem ht)
  rw [if_neg hg7] at h
  by_cases hg8 : gate = "y"
  · rw [if_pos hg8] at h
    obtain ⟨t, ht, h⟩ := bind_eq_ok h
    injection h with h
    rw [← h]
    exact hos t (listGet_ok_mem ht)
  rw [if_neg hg8] at h
  by_cases hg9 : gate = "z"
  · rw [if_pos hg9] at h
    obtain ⟨t, ht, h⟩ := bind_eq_ok h
    injection h with h
    rw [← h]
    exact hos t (listGet_ok_mem ht)
  rw [if_neg hg9] at h
  by_cases hg10 : gate = "rx"
  · rw [if_pos hg10] at h
    obtain ⟨t, ht, h⟩ := bind_eq_ok h
    obtain ⟨a, ha, h⟩ := bind_eq_ok h
    injection h with h
    rw [← h]
    exact hos t (listGet_ok_mem ht)
  rw [if_neg hg10] at h
  by_cases hg11 : gate = "ry"
  · rw [if_pos hg11] at h
    obtain ⟨t, ht, h⟩ := bind_eq_ok h
    obtain ⟨a, ha, h⟩ := bind_eq_ok h
    injection h with h
    rw [← h]
    exact hos t (listGet_ok_mem ht)
  rw [if_neg hg11] at h
  by_cases hg12 : gate = "rz"
  · rw [if_pos hg12] at h
    obtain ⟨t, ht, h⟩ := bind_eq_ok h
    obtain ⟨a, ha, h⟩ := bind_eq_ok h
    injection h with h
    rw [← h]
    exact hos t (listGet_ok_mem ht)
  rw [if_neg hg12] at h
  exact Except.noConfusion h

/-- Helper: a sized register declaration with a non-negative count
preserves the invariant and does not decrease the counter. -/
theorem declare_registers_inv_some {st st' : VisitorState}
    {kind : RegKind} {identifier : String} {d : Expr}
    (hinv : stateInv st)
    (hnn : ∀ c, desigCount st.env d = .ok c → 0 ≤ c)
    (h : declare_registers st kind identifier (some d) = .ok st') :
    stateInv st' ∧ st.width ≤ st'.width := by
  obtain ⟨hw, henv, hins⟩ := hinv
  unfold declare_registers at h
  dsimp only at h
  cases hdc : desigCount st.env d with
  | error err => rw [hdc] at h; exact Except.noConfusion h
  | ok c =>
      rw [hdc] at h
      dsimp only at h
      injection h with h
      subst h
      have hc0 : 0 ≤ c := hnn c hdc
      refine ⟨⟨by dsimp only; omega, ?_,
        instrs_bounded_mono (by dsimp only; omega) hins⟩,
        by dsimp only; omega⟩
      simp only [envBounded, envSet, List.all_cons, Bool.and_eq_true]
      constructor
      · rw [show valueBounded (st.width + c)
            (Value.array ((List.range c.toNat).map
              (fun i : ℕ => kind.mkRef (st.width + (i : ℤ))))) =
          valuesBounded (st.width + c) ((List.range c.toNat).map
              (fun i : ℕ => kind.mkRef (st.width + (i : ℤ)))) from rfl,
          valuesBounded_iff]
        intro v hv
        simp only [List.mem_map, List.mem_range] at hv
        obtain ⟨i, hi, rfl⟩ := hv
        cases kind <;>
          simp only [RegKind.mkRef, valueBounded, idxOk, Bool.and_eq_true,
            decide_eq_true_eq] <;>
          omega
      · have := envBounded_mono (show st.width ≤ st.width + c by omega) henv
        simpa [envBounded] using this

/-- Helper: a scalar declaration preserves the invariant and increases
the counter by one. -/
theorem declare_registers_inv_none {st st' : VisitorState}
    {kind : RegKind} {identifier : String}
    (hinv : stateInv st)
    (h : declare_registers st kind identifier none = .ok st') :
    stateInv st' ∧ st.width ≤ st'.width := by
  obtain ⟨hw, henv, hins⟩ := hinv
  unfold declare_registers at h
  dsimp only at h
  injection h with h
  subst h
  refine ⟨⟨by dsimp only; omega, ?_,
    instrs_bounded_mono (by dsimp only; omega) hins⟩,
    by dsimp only; omega⟩
  simp only [envBounded, envSet, List.all_cons, Bool.and_eq_true]
  constructor
  · cases kind <;>
      simp only [RegKind.mkRef, valueBounded, idxOk, Bool.and_eq_true,
        decide_eq_true_eq] <;>
      omega
  · have := envBounded_mono (show st.width ≤ st.width + 1 by omega) henv
    simpa [envBounded] using this

/-- Helper: a gate call preserves the invariant and leaves the counter
unchanged. -/
theorem gateCall_inv {st st' : VisitorState} {gate : String}
    {operands : List Operand} {angles : Option (List Expr)}
    (hinv : stateInv st)
    (h : visitGateCallStatement st gate operands angles = .ok st') :
    stateInv st' ∧ st.width ≤ st'.width := by
  obtain ⟨hw, henv, hins⟩ := hinv
  unfold visitGateCallStatement at h
  obtain ⟨os, hos, h⟩ := bind_eq_ok h
  obtain ⟨angs, hangs, h⟩ := bind_eq_ok h
  obtain ⟨instr, hinstr, h⟩ := bind_eq_ok h
  injection h with h
  subst h
  refine ⟨⟨hw, henv, ?_⟩, le_refl _⟩
  rw [show ({ st with instructions := st.instructions ++ [instr] }
      : VisitorState).instructions = st.instructions ++ [instr] from rfl,
    List.all_append]
  simp only [List.all_cons, List.all_nil, Bool.and_eq_true, Bool.and_true]
  exact ⟨hins, dispatchGate_bounded (mapM_convert_bounded henv hos) hinstr⟩

/-- Helper: one statement preserves the invariant and (given a
non-negative designator count) does not decrease the counter. -/
theorem runStmt_inv {st st' : VisitorState} {stmt : Stmt}
    (hinv : stateInv st) (hnn : stmtCountNonneg st.env stmt)
    (h : runStmt st stmt = .ok st') :
    stateInv st' ∧ st.width ≤ st'.width := by
  cases stmt with
  | oldStyleDecl kind identifier designator =>
      cases designator with
      | some d => exact declare_registers_inv_some hinv hnn h
      | none => exact declare_registers_inv_none hinv h
  | quantumDecl identifier designator =>
      cases designator with
      | some d => exact declare_registers_inv_some hinv hnn h
      | none => exact declare_registers_inv_none hinv h
  | constDecl identifier e =>
      obtain ⟨hw, henv, hins⟩ := hinv
      simp only [runStmt] at h
      cases he : evalExpr st.env e with
      | error err => rw [he] at h; exact Except.noConfusion h
      | ok v =>
          rw [he] at h
          injection h with h
          subst h
          refine ⟨⟨hw, ?_, hins⟩, le_refl _⟩
          simp only [envBounded, envSet, List.all_cons, Bool.and_eq_true]
          refine ⟨evalExpr_bounded henv e he, ?_⟩
          simpa [envBounded] using henv
  | gateCall gate operands angles => exact gateCall_inv hinv h
  | other =>
      simp only [runStmt] at h
      injection h with h
      subst h
      exact ⟨hinv, le_refl _⟩

/-- Helper: running a statement list preserves the invariant and (under
`NonNegRun`) never decreases the counter. -/
theorem runStmts_inv :
    ∀ (stmts : List Stmt) (st st' : VisitorState),
      stateInv st → NonNegRun st stmts → runStmts st stmts = .ok st' →
      stateInv st' ∧ st.width ≤ st'.width
  | [], st, st', hinv, _, h => by
      simp only [runStmts] at h
      injection h with h
      subst h
      exact ⟨hinv, le_refl _⟩
  | stmt :: rest, st, st', hinv, hnn, h => by
      simp only [runStmts] at h
      simp only [NonNegRun] at hnn
      cases h1 : runStmt st stmt with
      | error e => rw [h1] at h; exact Except.noConfusion h
      | ok st1 =>
          rw [h1] at h
          have h2 := runStmt_inv hinv hnn.1 h1
          have h3 := runStmts_inv rest st1 st' h2.1 (hnn.2 st1 h1) h
          exact ⟨h3.1, le_trans h2.2 h3.2⟩

/-- C4 amended: provided no register declaration's size designator
evaluates to a negative count (`NonNegRun`), every operand index of every
instruction in the returned IR lies within `[0, width)` where `width` is
the returned counter, and the counter never decreases across any
statement.  (Without that proviso the property fails — see the
counterexample: a negative designator makes `width` decrease below
already-emitted operand indices.) -/
theorem lowering_indices_in_range :
    (∀ (stmts : List Stmt) (st' : VisitorState),
      runStmts initState stmts = .ok st' → NonNegRun initState stmts →
      0 ≤ st'.width ∧
        st'.instructions.all (instrBounded st'.width) = true) ∧
    (∀ (st st' : VisitorState) (stmt : Stmt), stateInv st →
      stmtCountNonneg st.env stmt → runStmt st stmt = .ok st' →
      st.width ≤ st'.width) := by
  constructor
  · intro stmts st' hrun hnn
    have h := runStmts_inv stmts initState st' ⟨le_refl 0, rfl, rfl⟩ hnn hrun
    exact ⟨h.1.1, h.1.2.2⟩
  · intro st st' stmt hinv hnn h
    exact (runStmt_inv hinv hnn h).2

/-- Witness for `lowering_indices_in_range` on the program
`qubit[2] q; h q[0];`. -/
theorem lowering_indices_in_range_witness :
    runStmts initState
        [Stmt.quantumDecl "q" (some (Expr.intLit 2)),
         Stmt.gateCall "h" [Operand.indexedIdent "q" [Expr.intLit 0]]
           none] =
      .ok ⟨2, [Instruction.h 0],
            ("q", Value.array [.qubit 0, .qubit 1]) :: initState.env⟩ ∧
    (0 ≤ (2 : ℤ) ∧ [Instruction.h 0].all (instrBounded 2) = true) := by
  constructor
  · rfl
  · refine lowering_indices_in_range.1
      [Stmt.quantumDecl "q" (some (Expr.intLit 2)),
       Stmt.gateCall "h" [Operand.indexedIdent "q" [Expr.intLit 0]] none]
      ⟨2, [Instruction.h 0],
        ("q", Value.array [.qubit 0, .qubit 1]) :: initState.env⟩
      rfl ?_
    refine ⟨?_, ?_⟩
    · intro c hc
      injection hc with hc
      omega
    · intro st1 h1
      injection h1 with h1
      subst h1
      exact ⟨trivial, fun st2 h2 => trivial⟩

end GraphixQasm

